import Mathlib

/-!
Verification development for the `bloomberg-api-simulator` market simulation
engine (`src/BloombergSimulator.ts`).  The TypeScript source is shallowly
embedded: JavaScript numbers are modelled as exact rationals (`ℚ`), the
2-decimal rounding `parseFloat(x.toFixed(2))` as `toFixed2` below (round half
up on the exact rational), `Date` timestamps as `Int` milliseconds, and the
`Map`-backed continuity cache as an insertion-ordered association list.
Randomness (`Math.random()`) is modelled by explicitly passed rational
parameters, each assumed to lie in `[0, 1)` where a claim needs it.
-/

namespace BloombergSim

/-- `parseFloat(x.toFixed(2))`: round to 2 decimal places (half away from
zero in JS; all prices handled here are positive, where that coincides with
round-half-up, which `round` on `ℚ` implements). -/
def toFixed2 (x : ℚ) : ℚ := ((round (100 * x) : ℤ) : ℚ) / 100

/-- Under a shift by `d ∈ [1, 6]`, the rounded value moves by an integer
between 1 and 6. -/
theorem round_shift_bounds (x d : ℚ) (h1 : 1 ≤ d) (h6 : d ≤ 6) :
    round x + 1 ≤ round (x + d) ∧ round (x + d) ≤ round x + 6 := by
  rw [round_eq, round_eq]
  constructor
  · have hle : x + 1 / 2 + (1 : ℤ) ≤ x + d + 1 / 2 := by push_cast; linarith
    have := Int.floor_le_floor hle
    rwa [Int.floor_add_int] at this
  · have hle : x + d + 1 / 2 ≤ x + 1 / 2 + (6 : ℤ) := by push_cast; linarith
    have := Int.floor_le_floor hle
    rwa [Int.floor_add_int] at this

/-- The two sides of a spread `s ∈ [0.01, 0.06]` remain separated by a value
in `[0.01, 0.06]` after independent 2-decimal rounding. -/
theorem toFixed2_spread_bounds (p s : ℚ) (hs1 : 1 / 100 ≤ s) (hs6 : s ≤ 6 / 100) :
    toFixed2 (p - s / 2) < toFixed2 (p + s / 2) ∧
    1 / 100 ≤ toFixed2 (p + s / 2) - toFixed2 (p - s / 2) ∧
    toFixed2 (p + s / 2) - toFixed2 (p - s / 2) ≤ 6 / 100 := by
  have heq : 100 * (p + s / 2) = 100 * (p - s / 2) + 100 * s := by ring
  have hb := round_shift_bounds (100 * (p - s / 2)) (100 * s)
    (by linarith) (by linarith)
  unfold toFixed2
  rw [heq]
  obtain ⟨hlo, hhi⟩ := hb
  have hlo' : (round (100 * (p - s / 2)) : ℚ) + 1 ≤
      (round (100 * (p - s / 2) + 100 * s) : ℚ) := by exact_mod_cast hlo
  have hhi' : (round (100 * (p - s / 2) + 100 * s) : ℚ) ≤
      (round (100 * (p - s / 2)) : ℚ) + 6 := by exact_mod_cast hhi
  refine ⟨by linarith, by linarith, by linarith⟩

/-- `x` is an exact multiple of one cent. -/
def IsCents (x : ℚ) : Prop := ∃ z : ℤ, x = (z : ℚ) / 100

theorem toFixed2_cents {x : ℚ} (h : IsCents x) : toFixed2 x = x := by
  obtain ⟨z, rfl⟩ := h
  unfold toFixed2
  have : (100 : ℚ) * ((z : ℚ) / 100) = (z : ℚ) := by ring
  rw [this, round_intCast]

theorem toFixed2_pos {x : ℚ} (h : 1 ≤ x) : 0 < toFixed2 x := by
  unfold toFixed2
  have h2 : (1 : ℚ) ≤ 100 * x + 1 / 2 := by linarith
  have : (1 : ℤ) ≤ ⌊(100 : ℚ) * x + 1 / 2⌋ := by
    exact_mod_cast Int.le_floor.mpr (by exact_mod_cast h2)
  rw [round_eq]
  have : (1 : ℚ) ≤ (⌊(100 : ℚ) * x + 1 / 2⌋ : ℚ) := by exact_mod_cast this
  linarith

/-! ## Data model (src/types.ts) -/

/-- `MarketState` (`src/types.ts`); only the fields read by the generators
are carried (`volume`/`tradingHours` are never read by quote generation). -/
structure MarketState where
  condition : String
  volatility : ℚ
  momentum : ℚ
deriving Repr, DecidableEq

/-- `Quote` (`src/types.ts`).  `open` is a Lean keyword, so the field is
named `openPrice`.  Sizes/volumes are the `Math.floor(...)`-produced
nonnegative integers. -/
structure Quote where
  symbol : String
  timestamp : Int
  bid : ℚ
  ask : ℚ
  bidSize : ℕ
  askSize : ℕ
  last : ℚ
  lastSize : ℕ
  volume : ℕ
  change : ℚ
  changePercent : ℚ
  high : ℚ
  low : ℚ
  openPrice : ℚ
  vwap : ℚ
deriving Repr, DecidableEq

/-- `Trade` (`src/types.ts`). -/
structure Trade where
  id : String
  symbol : String
  timestamp : Int
  price : ℚ
  size : ℕ
  side : String
  exchange : String
  isBlock : Bool
  isOddLot : Bool
deriving Repr, DecidableEq

/-- `OrderBookLevel` (`src/types.ts`). -/
structure OrderBookLevel where
  price : ℚ
  size : ℕ
  orders : ℕ
deriving Repr, DecidableEq

/-- `MarketDepth` (`src/types.ts`). -/
structure MarketDepth where
  symbol : String
  timestamp : Int
  bids : List OrderBookLevel
  asks : List OrderBookLevel
  spread : ℚ
  midpoint : ℚ
deriving Repr, DecidableEq

/-- `CacheEntry<T>` (`src/types.ts`): payload, insertion timestamp
(`Date.now()` milliseconds), hit counter. -/
structure CacheEntry (α : Type) where
  data : α
  timestamp : Int
  hits : ℕ
deriving Repr, DecidableEq

/-- The `Map<string, CacheEntry<T>>` continuity cache, modelled as an
insertion-ordered association list (JS `Map` iteration order). -/
abbrev Cache (α : Type) := List (String × CacheEntry α)

/-! ## Map primitives (JS `Map` semantics on the association list) -/

/-- `Map.prototype.get`. -/
def mapGet {α : Type} : Cache α → String → Option (CacheEntry α)
  | [], _ => none
  | (k', v) :: rest, k => if k' = k then some v else mapGet rest k

/-- `Map.prototype.set`: replace in place (keeping the original insertion
position) when the key exists, otherwise append. -/
def mapSet {α : Type} : Cache α → String → CacheEntry α → Cache α
  | [], k, v => [(k, v)]
  | (k', v') :: rest, k, v =>
      if k' = k then (k, v) :: rest else (k', v') :: mapSet rest k v

/-- `Map.prototype.delete`: remove the (unique, in `Map` use) binding of the
key. -/
def mapDelete {α : Type} : Cache α → String → Cache α
  | [], _ => []
  | (k', v') :: rest, k => if k' = k then rest else (k', v') :: mapDelete rest k

/-! ## Price model: `generateQuote` (src/BloombergSimulator.ts:218) -/

/-- The ten `Math.random()` draws of one `generateQuote` call, in source
order of use.  `rSeed` is only consumed when no usable cached price exists
(JS `||`), but passing it unconditionally is observationally equivalent. -/
structure QuoteRands where
  rSeed : ℚ
  rChange : ℚ
  rSpread : ℚ
  rBidSize : ℚ
  rAskSize : ℚ
  rLastSize : ℚ
  rVolume : ℚ
  rHigh : ℚ
  rLow : ℚ
  rOpen : ℚ
deriving Repr, DecidableEq

/-- The pure core of `generateQuote`: given the cache lookup result for
`quote:<symbol>` and the market state, build the new `Quote`.
`cached?.last || 100 + Math.random() * 400` and `cached?.open || ...` use JS
truthiness: the cached number is discarded exactly when it is `0` (or the
lookup missed). -/
def generateQuote (sym : String) (cached : Option Quote) (r : QuoteRands)
    (ms : MarketState) (now : Int) : Quote :=
  let lastPrice : ℚ :=
    match cached with
    | some q => if q.last = 0 then 100 + r.rSeed * 400 else q.last
    | none => 100 + r.rSeed * 400
  let change := (r.rChange - 1 / 2 + ms.momentum * (1 / 10)) * ms.volatility * 2
  let newPrice := lastPrice * (1 + change / 100)
  let spread := 1 / 100 + r.rSpread * (5 / 100)
  { symbol := sym
    timestamp := now
    bid := toFixed2 (newPrice - spread / 2)
    ask := toFixed2 (newPrice + spread / 2)
    bidSize := (⌊r.rBidSize * 1000⌋).toNat * 100
    askSize := (⌊r.rAskSize * 1000⌋).toNat * 100
    last := toFixed2 newPrice
    lastSize := (⌊r.rLastSize * 500⌋).toNat * 100
    volume := (⌊r.rVolume * 10000000⌋).toNat
    change := toFixed2 (newPrice - lastPrice)
    changePercent := toFixed2 ((newPrice - lastPrice) / lastPrice * 100)
    high := toFixed2 (newPrice * (1 + r.rHigh * (2 / 100)))
    low := toFixed2 (newPrice * (1 - r.rLow * (2 / 100)))
    openPrice :=
      match cached with
      | some q =>
          if q.openPrice = 0 then
            toFixed2 (lastPrice * (1 + (r.rOpen - 1 / 2) * (1 / 100)))
          else q.openPrice
      | none => toFixed2 (lastPrice * (1 + (r.rOpen - 1 / 2) * (1 / 100)))
    vwap := toFixed2 newPrice }

/-! ## Continuity cache (src/BloombergSimulator.ts:454-481) -/

/-- `getFromCache`: lazy TTL expiry (`age > cacheTTL` deletes and misses),
otherwise increment the hit counter in place and return the payload.
Returns the (possibly updated) cache alongside the result. -/
def getFromCache {α : Type} (ttl : Int) (c : Cache α) (key : String)
    (now : Int) : Option α × Cache α :=
  match mapGet c key with
  | none => (none, c)
  | some e =>
      if ttl < now - e.timestamp then (none, mapDelete c key)
      else (some e.data, mapSet c key ⟨e.data, e.timestamp, e.hits + 1⟩)

/-- The entry selected by
`Array.from(cache.entries()).sort((a, b) => a[1].timestamp - b[1].timestamp)[0]`:
JS `sort` is stable, so the head of the sorted array is the
first-encountered entry with minimal insertion timestamp. -/
def oldestEntry {α : Type} : Cache α → Option (String × CacheEntry α)
  | [] => none
  | p :: rest =>
      match oldestEntry rest with
      | none => some p
      | some q => if q.2.timestamp < p.2.timestamp then some q else some p

/-- `putInCache`: when `cache.size >= cacheMaxSize`, delete the oldest entry
(by insertion timestamp) before inserting the new entry with `hits = 0`.
On an empty cache with `cacheMaxSize = 0` the source indexes `[0][0]` of an
empty array and throws a `TypeError`; that failure is modelled as `none`. -/
def putInCache {α : Type} (maxSize : ℕ) (c : Cache α) (key : String)
    (data : α) (now : Int) : Option (Cache α) :=
  if maxSize ≤ c.length then
    match oldestEntry c with
    | none => none
    | some p => some (mapSet (mapDelete c p.1) key ⟨data, now, 0⟩)
  else some (mapSet c key ⟨data, now, 0⟩)

/-- The cache key used by `generateQuote` for a symbol. -/
def quoteCacheKey (sym : String) : String := "quote:" ++ sym

/-- The `generateQuote` *method*: cache lookup, pure quote construction,
cache insertion (the insertion can fail only in the degenerate
`cacheMaxSize = 0` situation, see `putInCache`). -/
def generateQuoteM (ttl : Int) (maxSize : ℕ) (c : Cache Quote) (sym : String)
    (r : QuoteRands) (ms : MarketState) (now : Int) :
    Quote × Option (Cache Quote) :=
  let res := getFromCache ttl c (quoteCacheKey sym) now
  let q := generateQuote sym res.1 r ms now
  (q, putInCache maxSize res.2 (quoteCacheKey sym) q now)

/-! ## Trade generator (src/BloombergSimulator.ts:259) -/

/-- The `Math.random()` draws of one `generateTrade` call. -/
structure TradeRands where
  rPrice : ℚ
  rSize : ℚ
  rSide : ℚ
  rExchange : ℚ
  rBlock : ℚ
  rOddLot : ℚ
deriving Repr, DecidableEq

/-- The exchange pool of `randomExchange`. -/
def exchangePool : List String := ["NYSE", "NASDAQ", "AMEX", "BATS", "IEX"]

/-- `generateTrade` (the generated id string is passed in; the source
builds it from `Date.now()` and a random base-36 suffix). -/
def generateTrade (tradeId : String) (sym : String) (price : ℚ)
    (r : TradeRands) (now : Int) : Trade :=
  { id := tradeId
    symbol := sym
    timestamp := now
    price := toFixed2 (price + (r.rPrice - 1 / 2) * (1 / 10))
    size := (⌊r.rSize * 1000⌋).toNat * 100
    side := if 1 / 2 < r.rSide then "buy" else "sell"
    exchange := exchangePool.getD (⌊r.rExchange * 5⌋).toNat "NYSE"
    isBlock := decide (19 / 20 < r.rBlock)
    isOddLot := decide (9 / 10 < r.rOddLot) }

/-! ## Depth generator: `generateMarketDepth` (src/BloombergSimulator.ts:276) -/

/-- Per-level `Math.random()` draws of `generateMarketDepth`, indexed by
level number. -/
structure DepthRands where
  rBidSize : ℕ → ℚ
  rBidOrders : ℕ → ℚ
  rAskSize : ℕ → ℚ
  rAskOrders : ℕ → ℚ

/-- `generateMarketDepth`: exactly 10 levels per side, level `i` at
`quote.bid - i*0.01` / `quote.ask + i*0.01` (2-decimal rounded); spread and
midpoint recomputed from the quote. -/
def generateMarketDepth (sym : String) (q : Quote) (r : DepthRands)
    (now : Int) : MarketDepth :=
  let levels := 10
  { symbol := sym
    timestamp := now
    bids := (List.range levels).map fun (i : ℕ) =>
      { price := toFixed2 (q.bid - (i : ℚ) * (1 / 100))
        size := (⌊r.rBidSize i * 5000⌋).toNat * 100
        orders := (⌊r.rBidOrders i * 50⌋).toNat + 1 }
    asks := (List.range levels).map fun (i : ℕ) =>
      { price := toFixed2 (q.ask + (i : ℚ) * (1 / 100))
        size := (⌊r.rAskSize i * 5000⌋).toNat * 100
        orders := (⌊r.rAskOrders i * 50⌋).toNat + 1 }
    spread := toFixed2 (q.ask - q.bid)
    midpoint := toFixed2 ((q.ask + q.bid) / 2) }

/-! ## Stream driver state machine (src/BloombergSimulator.ts:142-182) -/

/-- The driver state: `isRunning` flag, the live timer (with its interval)
and the configured base interval. -/
structure SimState where
  isRunning : Bool
  streamInterval : Option ℚ
  configInterval : ℚ
deriving Repr, DecidableEq

/-- `startStreaming`: throws `'Simulator is already running'` when running
(leaving the state untouched), otherwise installs the timer with interval
`options.delay || config.interval || 100` (JS `||`: `0`/absent falls
through).  Modelled as the thrown-or-ok outcome paired with the next
state. -/
def startStreaming (s : SimState) (optionsDelay : Option ℚ) :
    Except String Unit × SimState :=
  if s.isRunning then (Except.error "Simulator is already running", s)
  else
    let fallback := if s.configInterval = 0 then 100 else s.configInterval
    let interval :=
      match optionsDelay with
      | some d => if d = 0 then fallback else d
      | none => fallback
    (Except.ok (), { s with isRunning := true, streamInterval := some interval })

/-- `stopStreaming`: clear the timer and the running flag; never throws. -/
def stopStreaming (s : SimState) : SimState :=
  { s with isRunning := false, streamInterval := none }

/-! ## Performance governor: `optimizePerformance` (src/BloombergSimulator.ts:428) -/

/-- `optimizePerformance`: on `metric.latency > 100`, set
`config.interval = Math.min((config.interval || 100) * 1.1, 1000)`;
otherwise leave the interval alone. -/
def optimizePerformance (interval : ℚ) (latency : ℚ) : ℚ :=
  if 100 < latency then
    min ((if interval = 0 then 100 else interval) * (11 / 10)) 1000
  else interval

/-! ## Sequential tick runs (startStreaming's `parallel: false` branch,
one symbol per tick via `generateSymbolData` → `generateQuote`) -/

/-- Run a sequence of ticks for one symbol, collecting the emitted Quote
events and threading the continuity cache; each tick supplies its own
random draws and wall-clock time.  A cache-insertion failure (only possible
with `cacheMaxSize = 0`) aborts the run. -/
def runTicks (ttl : Int) (maxSize : ℕ) (ms : MarketState) (sym : String) :
    Option (Cache Quote) → List (QuoteRands × Int) → List Quote
  | _, [] => []
  | none, _ => []
  | some c, (r, t) :: rest =>
      let step := generateQuoteM ttl maxSize c sym r ms t
      step.1 :: runTicks ttl maxSize ms sym step.2 rest

/-! ## Pull-mode iterator: `generateStream` (src/BloombergSimulator.ts:515) -/

/-- A yielded item of `generateStream` (quotes and trades; news/depth are
not produced by this iterator). -/
inductive StreamItem where
  | quoteItem : Quote → StreamItem
  | tradeItem : Trade → StreamItem
deriving Repr, DecidableEq

/-- Random draws for one inner iteration of the chunk-building loop:
symbol pick, quote draws, the `Math.random() > 0.7` trade decision, and the
trade draws (consumed only when a trade fires). -/
structure StreamRand where
  rSymbol : ℚ
  qr : QuoteRands
  rTrade : ℚ
  tr : TradeRands

/-- The items one inner iteration of `generateStream` pushes: the quote,
and with probability `Math.random() > 0.7` also a trade at the quote's
`last`. -/
def streamIterItems (q : Quote) (sym : String) (r : StreamRand)
    (now : Int) : List StreamItem :=
  if 7 / 10 < r.rTrade then
    [StreamItem.quoteItem q,
     StreamItem.tradeItem (generateTrade "" sym q.last r.tr now)]
  else [StreamItem.quoteItem q]

/-- One chunk-building pass of `generateStream`: `n` inner iterations
starting at inner index `i`.  Each iteration picks a symbol
(`symbols[Math.floor(rand * symbols.length)]`), generates a quote through
the cache, and pushes its `streamIterItems`.  The whole chunk's items are
accumulated first and yielded only after the loop, so a thrown cache
insertion (`none`, propagated by `bind`/`map`) discards the chunk. -/
def streamChunkAux (ttl : Int) (maxSize : ℕ) (symbols : List String)
    (ms : MarketState) (now : Int) (rnd : ℕ → StreamRand) :
    ℕ → ℕ → Cache Quote → Option (List StreamItem × Cache Quote)
  | _, 0, c => some ([], c)
  | i, n + 1, c =>
      let r := rnd i
      let sym := symbols.getD (⌊r.rSymbol * symbols.length⌋).toNat ""
      let step := generateQuoteM ttl maxSize c sym r.qr ms now
      step.2.bind fun c' =>
        (streamChunkAux ttl maxSize symbols ms now rnd (i + 1) n c').map
          fun rc => (streamIterItems step.1 sym r now ++ rc.1, rc.2)

/-- The `while (generated < count)` loop of `generateStream`: each pass
builds a chunk of `Math.min(chunkSize, count - generated)` quote slots
(yielding 1 or 2 items each) and advances `generated` by the number of
items actually yielded.  `fuel` bounds the recursion; every pass yields at
least one item, so `fuel = count` suffices to reproduce the source loop. -/
def streamLoop (ttl : Int) (maxSize : ℕ) (cs : ℕ) (symbols : List String)
    (ms : MarketState) (now : Int) (rnd : ℕ → ℕ → StreamRand) (count : ℕ) :
    ℕ → ℕ → ℕ → Cache Quote → List (List StreamItem)
  | 0, _, _, _ => []
  | fuel + 1, k, gen, c =>
      if count ≤ gen then []
      else
        let chunk := min cs (count - gen)
        match streamChunkAux ttl maxSize symbols ms now (rnd k) 0 chunk c with
        | none => []
        | some (items, c') =>
            items :: streamLoop ttl maxSize cs symbols ms now rnd count
              fuel (k + 1) (gen + items.length) c'

/-- `generateStream` for a finite positive `options.count`, returning the
yielded chunks in order.  `options.chunkSize || 100` is the JS falsy
default; `options.count || Infinity` (absent/zero count → unbounded) is
outside this finite model. -/
def generateStreamChunks (ttl : Int) (maxSize : ℕ) (symbols : List String)
    (ms : MarketState) (now : Int) (rnd : ℕ → ℕ → StreamRand)
    (count chunkSize : ℕ) : List (List StreamItem) :=
  let cs := if chunkSize = 0 then 100 else chunkSize
  streamLoop ttl maxSize cs symbols ms now rnd count count 0 0 []

/-! ## Cache operation sequences (for the size invariant) -/

/-- An externally observable cache operation. -/
inductive CacheOp (α : Type) where
  | putOp : String → α → Int → CacheOp α
  | getOp : String → Int → CacheOp α

/-- Apply one operation to the (possibly already failed) cache. -/
def applyOp {α : Type} (maxSize : ℕ) (ttl : Int) :
    Option (Cache α) → CacheOp α → Option (Cache α)
  | none, _ => none
  | some c, .putOp k d t => putInCache maxSize c k d t
  | some c, .getOp k t => some (getFromCache ttl c k t).2

/-! ## Claim C1 -/

/-- C1: for every quote produced by `generateQuote` — in any simulator
state, cached prior quote or not — the rounded `ask` strictly exceeds the
rounded `bid`, and `ask - bid` lies in `[0.01, 0.06]`.  The only assumption
is that the spread draw is a `Math.random()` value in `[0, 1)`. -/
theorem generateQuote_spread_invariant (sym : String) (cached : Option Quote)
    (r : QuoteRands) (ms : MarketState) (now : Int)
    (h0 : 0 ≤ r.rSpread) (h1 : r.rSpread < 1) :
    (generateQuote sym cached r ms now).bid < (generateQuote sym cached r ms now).ask ∧
    1 / 100 ≤ (generateQuote sym cached r ms now).ask -
        (generateQuote sym cached r ms now).bid ∧
    (generateQuote sym cached r ms now).ask -
        (generateQuote sym cached r ms now).bid ≤ 6 / 100 := by
  have h5 : 0 ≤ r.rSpread * (5 / 100) := mul_nonneg h0 (by norm_num)
  have h5' : r.rSpread * (5 / 100) ≤ 5 / 100 := by nlinarith
  exact toFixed2_spread_bounds _ _ (by linarith) (by linarith)

/-- A fixed market state for concrete evaluations. -/
def msSample : MarketState := ⟨"normal", 1 / 5, 0⟩

/-- A fixed bundle of quote randomness for concrete evaluations. -/
def qrSample : QuoteRands :=
  ⟨1 / 2, 1 / 2, 1 / 2, 1 / 2, 1 / 2, 1 / 2, 1 / 2, 1 / 2, 1 / 2, 1 / 2⟩

/-- Witness for C1 at a concrete input. -/
theorem generateQuote_spread_invariant_witness :
    0 ≤ qrSample.rSpread ∧ qrSample.rSpread < 1 ∧
    ((generateQuote "AAPL" none qrSample msSample 0).bid <
        (generateQuote "AAPL" none qrSample msSample 0).ask ∧
      1 / 100 ≤ (generateQuote "AAPL" none qrSample msSample 0).ask -
          (generateQuote "AAPL" none qrSample msSample 0).bid ∧
      (generateQuote "AAPL" none qrSample msSample 0).ask -
          (generateQuote "AAPL" none qrSample msSample 0).bid ≤ 6 / 100) :=
  ⟨by norm_num [qrSample], by norm_num [qrSample],
    generateQuote_spread_invariant "AAPL" none qrSample msSample 0
      (by norm_num [qrSample]) (by norm_num [qrSample])⟩

example : (generateQuote "AAPL" none qrSample msSample 0).bid = 14999 / 50 := by
  norm_num [generateQuote, qrSample, msSample, toFixed2, round_eq]

/-! ## Claim C8 -/

/-- C8 counterexample: the claim fails as stated.  At a configured interval
of 2000ms, a high-latency metric *shortens* the cadence to the 1000ms
ceiling; and at interval `0` the source's `config.interval || 100` default
makes the result `110`, not `min(0 * 1.1, 1000) = 0`. -/
theorem optimizePerformance_counterexample :
    optimizePerformance 2000 150 = 1000 ∧
    optimizePerformance 2000 150 < 2000 ∧
    optimizePerformance 0 150 = 110 ∧
    optimizePerformance 0 150 ≠ min ((0 : ℚ) * (11 / 10)) 1000 := by
  refine ⟨?_, ?_, ?_, ?_⟩ <;>
    · unfold optimizePerformance
      norm_num [min_def]

/-- C8 amended: on a reported metric with latency strictly above 100ms the
interval becomes `min((interval || 100) * 1.1, 1000)`; at or below the
threshold it is unchanged; and the cadence never shortens provided the
current interval does not exceed the 1000ms ceiling. -/
theorem optimizePerformance_spec (i l : ℚ) :
    (100 < l → optimizePerformance i l =
      min ((if i = 0 then 100 else i) * (11 / 10)) 1000) ∧
    (l ≤ 100 → optimizePerformance i l = i) ∧
    (0 ≤ i → i ≤ 1000 → i ≤ optimizePerformance i l) := by
  refine ⟨fun h => ?_, fun h => ?_, fun h0 h1000 => ?_⟩
  · unfold optimizePerformance
    rw [if_pos h]
  · unfold optimizePerformance
    rw [if_neg (not_lt.mpr h)]
  · unfold optimizePerformance
    split_ifs with hl hi
    · subst hi
      norm_num [min_def]
    · exact le_min (by nlinarith) h1000
    · exact le_refl i

/-- Witness for C8 at concrete inputs. -/
theorem optimizePerformance_spec_witness :
    optimizePerformance 100 150 =
      min ((if (100 : ℚ) = 0 then 100 else 100) * (11 / 10)) 1000 ∧
    optimizePerformance 100 50 = 100 ∧
    (100 : ℚ) ≤ optimizePerformance 100 150 :=
  ⟨(optimizePerformance_spec 100 150).1 (by norm_num),
   (optimizePerformance_spec 100 50).2.1 (by norm_num),
   (optimizePerformance_spec 100 150).2.2 (by norm_num) (by norm_num)⟩

/-! ## Claim C6 -/

/-- C6: `startStreaming` throws `'Simulator is already running'` exactly
when called while running, and then leaves the state unchanged; from idle
it transitions to running.  `stopStreaming` always lands in idle, never
throws (it is a total function), and a second consecutive call is a
no-op. -/
theorem startStop_state_machine (s : SimState) (d : Option ℚ) :
    (s.isRunning = true ↔
      (startStreaming s d).1 = Except.error "Simulator is already running") ∧
    (s.isRunning = true → (startStreaming s d).2 = s) ∧
    (s.isRunning = false → (startStreaming s d).1 = Except.ok () ∧
      (startStreaming s d).2.isRunning = true) ∧
    (stopStreaming s).isRunning = false ∧
    stopStreaming (stopStreaming s) = stopStreaming s := by
  unfold startStreaming stopStreaming
  cases hs : s.isRunning <;> simp [hs]

/-- A running driver state for concrete evaluations. -/
def runningSample : SimState := ⟨true, some 100, 100⟩

/-- Witness for C6: starting while running errors and preserves the state;
after a stop, a restart succeeds. -/
theorem startStop_state_machine_witness :
    (startStreaming runningSample none).1 =
      Except.error "Simulator is already running" ∧
    (startStreaming runningSample none).2 = runningSample ∧
    (startStreaming (stopStreaming runningSample) none).2.isRunning = true :=
  ⟨(startStop_state_machine runningSample none).1.mp rfl,
   (startStop_state_machine runningSample none).2.1 rfl,
   ((startStop_state_machine (stopStreaming runningSample) none).2.2.1 rfl).2⟩

/-! ## Claim C9 -/

/-- A cached quote carrying a negative `last` price. -/
def qNeg : Quote :=
  { symbol := "AAPL", timestamp := 0, bid := 0, ask := 0, bidSize := 0,
    askSize := 0, last := -5, lastSize := 0, volume := 0, change := 0,
    changePercent := 0, high := 0, low := 0, openPrice := 1, vwap := 0 }

/-- All-zero randomness. -/
def qrZero : QuoteRands := ⟨0, 0, 0, 0, 0, 0, 0, 0, 0, 0⟩

/-- A zero-volatility market state (so the new price equals the prior). -/
def msZero : MarketState := ⟨"normal", 0, 0⟩

/-- C9 counterexample: a cached prior `last` of `-5` is *not* treated as
absent — JS `||` only discards falsy `0` — so the new price is derived from
`-5` (here, with zero volatility, it stays `-5`), not from the seed `100 +
0 * 400 = 100` that the claim's reseeding would produce. -/
theorem generateQuote_negative_prior_counterexample :
    (generateQuote "AAPL" (some qNeg) qrZero msZero 0).last = -5 ∧
    (generateQuote "AAPL" (some qNeg) qrZero msZero 0).last ≠ 100 := by
  norm_num [generateQuote, qNeg, qrZero, msZero, toFixed2, round_eq]

/-- C9 amended: `generateQuote` is total; the prior price is treated as
absent (reseeded from `100 + rand * 400`) exactly when no quote is cached
or the cached `last` is `0`; a negative cached `last` is used as-is. -/
theorem generateQuote_prior_price_spec (sym : String) (cached : Option Quote)
    (r : QuoteRands) (ms : MarketState) (now : Int) :
    ((cached = none ∨ ∃ q, cached = some q ∧ q.last = 0) →
      (generateQuote sym cached r ms now).last =
        toFixed2 ((100 + r.rSeed * 400) *
          (1 + (r.rChange - 1 / 2 + ms.momentum * (1 / 10)) * ms.volatility * 2 / 100))) ∧
    (∀ q, cached = some q → q.last ≠ 0 →
      (generateQuote sym cached r ms now).last =
        toFixed2 (q.last *
          (1 + (r.rChange - 1 / 2 + ms.momentum * (1 / 10)) * ms.volatility * 2 / 100))) := by
  constructor
  · rintro (rfl | ⟨q, rfl, hq⟩)
    · simp [generateQuote]
    · simp [generateQuote, hq]
  · rintro q rfl hq
    simp [generateQuote, hq]

/-- Witness for C9 at concrete inputs (both reseeding branches and the
use-as-is branch). -/
theorem generateQuote_prior_price_spec_witness :
    (generateQuote "AAPL" none qrSample msSample 0).last =
      toFixed2 ((100 + qrSample.rSeed * 400) *
        (1 + (qrSample.rChange - 1 / 2 + msSample.momentum * (1 / 10)) *
          msSample.volatility * 2 / 100)) ∧
    (generateQuote "AAPL" (some qNeg) qrSample msSample 0).last =
      toFixed2 (qNeg.last *
        (1 + (qrSample.rChange - 1 / 2 + msSample.momentum * (1 / 10)) *
          msSample.volatility * 2 / 100)) :=
  ⟨(generateQuote_prior_price_spec "AAPL" none qrSample msSample 0).1 (Or.inl rfl),
   (generateQuote_prior_price_spec "AAPL" (some qNeg) qrSample msSample 0).2 qNeg rfl
     (by norm_num [qNeg])⟩

/-! ## Claim C2 -/

/-- Cent-multiples are closed under subtracting `i` cents. -/
theorem IsCents.sub_cents {x : ℚ} (h : IsCents x) (i : ℕ) :
    IsCents (x - (i : ℚ) * (1 / 100)) := by
  obtain ⟨z, rfl⟩ := h
  exact ⟨z - i, by push_cast; ring⟩

/-- Cent-multiples are closed under adding `i` cents. -/
theorem IsCents.add_cents {x : ℚ} (h : IsCents x) (i : ℕ) :
    IsCents (x + (i : ℚ) * (1 / 100)) := by
  obtain ⟨z, rfl⟩ := h
  exact ⟨z + i, by push_cast; ring⟩

/-- Cent-multiples are closed under subtraction. -/
theorem IsCents.sub {x y : ℚ} (hx : IsCents x) (hy : IsCents y) :
    IsCents (x - y) := by
  obtain ⟨z, rfl⟩ := hx
  obtain ⟨w, rfl⟩ := hy
  exact ⟨z - w, by push_cast; ring⟩

/-- Depth randomness fixed at one half, for concrete evaluations. -/
def drHalf : DepthRands :=
  ⟨fun _ => 1 / 2, fun _ => 1 / 2, fun _ => 1 / 2, fun _ => 1 / 2⟩

/-- A top-of-book quote with a one-cent spread (bid 100.00, ask 100.01);
`generateQuote` can produce exactly this top of book. -/
def qTop : Quote :=
  { symbol := "AAPL", timestamp := 0, bid := 100, ask := 10001 / 100,
    bidSize := 0, askSize := 0, last := 100, lastSize := 0, volume := 0,
    change := 0, changePercent := 0, high := 0, low := 0, openPrice := 100,
    vwap := 100 }

/-- C2 counterexample: the claim's `midpoint = (ask + bid) / 2` fails —
the source rounds the midpoint to 2 decimals, so for bid 100.00 / ask
100.01 it reports 100.01, not 100.005. -/
theorem generateMarketDepth_midpoint_counterexample :
    (generateMarketDepth "AAPL" qTop drHalf 0).midpoint = 10001 / 100 ∧
    (generateMarketDepth "AAPL" qTop drHalf 0).midpoint ≠
      (qTop.ask + qTop.bid) / 2 := by
  norm_num [generateMarketDepth, qTop, toFixed2, round_eq]

/-- C2 amended: for a quote whose `bid`/`ask` are cent-multiples with
`bid ≤ ask` (as every `generateQuote` output is), the depth has exactly 10
levels per side with level `i` at `bid - i·0.01` / `ask + i·0.01` (the
2-decimal rounding is the identity there), bid prices strictly decreasing,
ask prices strictly increasing, `spread = ask - bid ≥ 0` computed from the
quote, and `midpoint` equal to `(ask + bid) / 2` *rounded to 2 decimals* —
both recomputed from the quote, not the levels. -/
theorem generateMarketDepth_spec (sym : String) (q : Quote) (r : DepthRands)
    (now : Int) (hb : IsCents q.bid) (ha : IsCents q.ask)
    (hba : q.bid ≤ q.ask) :
    (generateMarketDepth sym q r now).bids.length = 10 ∧
    (generateMarketDepth sym q r now).asks.length = 10 ∧
    (generateMarketDepth sym q r now).bids.map OrderBookLevel.price =
      (List.range 10).map (fun (i : ℕ) => q.bid - (i : ℚ) * (1 / 100)) ∧
    (generateMarketDepth sym q r now).asks.map OrderBookLevel.price =
      (List.range 10).map (fun (i : ℕ) => q.ask + (i : ℚ) * (1 / 100)) ∧
    ((generateMarketDepth sym q r now).bids.map OrderBookLevel.price).Pairwise (· > ·) ∧
    ((generateMarketDepth sym q r now).asks.map OrderBookLevel.price).Pairwise (· < ·) ∧
    (generateMarketDepth sym q r now).spread = q.ask - q.bid ∧
    0 ≤ (generateMarketDepth sym q r now).spread ∧
    (generateMarketDepth sym q r now).midpoint = toFixed2 ((q.ask + q.bid) / 2) := by
  have hbidmap : (generateMarketDepth sym q r now).bids.map OrderBookLevel.price =
      (List.range 10).map (fun (i : ℕ) => q.bid - (i : ℚ) * (1 / 100)) := by
    simp only [generateMarketDepth, List.map_map]
    refine List.map_congr_left fun i _ => ?_
    exact toFixed2_cents (hb.sub_cents i)
  have haskmap : (generateMarketDepth sym q r now).asks.map OrderBookLevel.price =
      (List.range 10).map (fun (i : ℕ) => q.ask + (i : ℚ) * (1 / 100)) := by
    simp only [generateMarketDepth, List.map_map]
    refine List.map_congr_left fun i _ => ?_
    exact toFixed2_cents (ha.add_cents i)
  have hspread : (generateMarketDepth sym q r now).spread = q.ask - q.bid :=
    toFixed2_cents (ha.sub hb)
  refine ⟨by simp [generateMarketDepth], by simp [generateMarketDepth],
    hbidmap, haskmap, ?_, ?_, hspread, by rw [hspread]; linarith, rfl⟩
  · rw [hbidmap, List.pairwise_map]
    refine (List.pairwise_lt_range 10).imp fun {a b} hab => ?_
    have : (a : ℚ) < (b : ℚ) := by exact_mod_cast hab
    linarith
  · rw [haskmap, List.pairwise_map]
    refine (List.pairwise_lt_range 10).imp fun {a b} hab => ?_
    have : (a : ℚ) < (b : ℚ) := by exact_mod_cast hab
    linarith

/-- Witness for C2 at a concrete cent-priced quote. -/
theorem generateMarketDepth_spec_witness :
    IsCents qTop.bid ∧ IsCents qTop.ask ∧ qTop.bid ≤ qTop.ask ∧
    ((generateMarketDepth "MSFT" qTop drHalf 0).bids.length = 10 ∧
      (generateMarketDepth "MSFT" qTop drHalf 0).asks.length = 10 ∧
      (generateMarketDepth "MSFT" qTop drHalf 0).bids.map OrderBookLevel.price =
        (List.range 10).map (fun (i : ℕ) => qTop.bid - (i : ℚ) * (1 / 100)) ∧
      (generateMarketDepth "MSFT" qTop drHalf 0).asks.map OrderBookLevel.price =
        (List.range 10).map (fun (i : ℕ) => qTop.ask + (i : ℚ) * (1 / 100)) ∧
      ((generateMarketDepth "MSFT" qTop drHalf 0).bids.map OrderBookLevel.price).Pairwise (· > ·) ∧
      ((generateMarketDepth "MSFT" qTop drHalf 0).asks.map OrderBookLevel.price).Pairwise (· < ·) ∧
      (generateMarketDepth "MSFT" qTop drHalf 0).spread = qTop.ask - qTop.bid ∧
      0 ≤ (generateMarketDepth "MSFT" qTop drHalf 0).spread ∧
      (generateMarketDepth "MSFT" qTop drHalf 0).midpoint =
        toFixed2 ((qTop.ask + qTop.bid) / 2)) :=
  ⟨⟨10000, by norm_num [qTop]⟩, ⟨10001, by norm_num [qTop]⟩,
   by norm_num [qTop],
   generateMarketDepth_spec "MSFT" qTop drHalf 0
     ⟨10000, by norm_num [qTop]⟩ ⟨10001, by norm_num [qTop]⟩
     (by norm_num [qTop])⟩

/-! ## Cache lemmas -/

/-- `oldestEntry` returns the first-encountered entry whose insertion
timestamp is minimal: the cache splits around the returned entry, every
entry is at least as new, and every entry strictly before it is strictly
newer. -/
theorem oldestEntry_spec {α : Type} :
    ∀ c : Cache α, c ≠ [] →
      ∃ l1 p l2, c = l1 ++ p :: l2 ∧ oldestEntry c = some p ∧
        (∀ q ∈ c, p.2.timestamp ≤ q.2.timestamp) ∧
        (∀ q ∈ l1, p.2.timestamp < q.2.timestamp)
  | [], h => absurd rfl h
  | [a], _ => by
    refine ⟨[], a, [], by simp, by simp [oldestEntry], ?_, by simp⟩
    intro q hq
    simp only [List.mem_singleton] at hq
    simp [hq]
  | a :: b :: rest, _ => by
    obtain ⟨l1, p, l2, hsplit, hold, hmin, hbefore⟩ :=
      oldestEntry_spec (b :: rest) (by simp)
    have hstep : oldestEntry (a :: b :: rest) =
        match oldestEntry (b :: rest) with
        | none => some a
        | some q => if q.2.timestamp < a.2.timestamp then some q else some a := rfl
    by_cases hts : p.2.timestamp < a.2.timestamp
    · refine ⟨a :: l1, p, l2, by rw [List.cons_append, ← hsplit], ?_, ?_, ?_⟩
      · rw [hstep, hold]
        simp [hts]
      · intro q hq
        rcases List.mem_cons.mp hq with rfl | hq'
        · exact le_of_lt hts
        · exact hmin q hq'
      · intro q hq
        rcases List.mem_cons.mp hq with rfl | hq'
        · exact hts
        · exact hbefore q hq'
    · refine ⟨[], a, b :: rest, by simp, ?_, ?_, by simp⟩
      · rw [hstep, hold]
        simp [hts]
      · intro q hq
        rcases List.mem_cons.mp hq with rfl | hq'
        · exact le_refl _
        · exact le_trans (not_lt.mp hts) (hmin q hq')

/-- Deleting a present key removes exactly one entry. -/
theorem mapDelete_length_of_mem {α : Type} :
    ∀ {c : Cache α} {k : String}, (∃ q ∈ c, q.1 = k) →
      (mapDelete c k).length + 1 = c.length
  | [], k, h => by simp at h
  | a :: rest, k, h => by
    by_cases hk : a.1 = k
    · simp [mapDelete, hk]
    · obtain ⟨q, hq, hqk⟩ := h
      rcases List.mem_cons.mp hq with rfl | hq'
      · exact absurd hqk hk
      · have := mapDelete_length_of_mem ⟨q, hq', hqk⟩
        simp only [mapDelete, hk, if_false, List.length_cons]
        omega

/-- Deleting never grows the cache. -/
theorem mapDelete_length_le {α : Type} :
    ∀ (c : Cache α) (k : String), (mapDelete c k).length ≤ c.length
  | [], _ => by simp [mapDelete]
  | a :: rest, k => by
    by_cases hk : a.1 = k
    · simp [mapDelete, hk]
    · simpa [mapDelete, hk] using mapDelete_length_le rest k

/-- Inserting grows the cache by at most one entry. -/
theorem mapSet_length_le {α : Type} :
    ∀ (c : Cache α) (k : String) (v : CacheEntry α),
      (mapSet c k v).length ≤ c.length + 1
  | [], _, _ => by simp [mapSet]
  | a :: rest, k, v => by
    by_cases hk : a.1 = k
    · simp [mapSet, hk]
    · simpa [mapSet, hk] using mapSet_length_le rest k v

/-- Overwriting a present key keeps the entry count. -/
theorem mapSet_length_of_get {α : Type} :
    ∀ {c : Cache α} {k : String} {e : CacheEntry α}, mapGet c k = some e →
      ∀ v, (mapSet c k v).length = c.length
  | [], k, e, h => by simp [mapGet] at h
  | a :: rest, k, e, h => by
    intro v
    by_cases hk : a.1 = k
    · simp [mapSet, hk]
    · have h' : mapGet rest k = some e := by
        simpa [mapGet, hk] using h
      simpa [mapSet, hk] using mapSet_length_of_get h' v

/-! ## Claim C3 -/

/-- C3: when the cache is at or above the configured maximum (of at least
1 — the source would throw on an empty cache with maximum 0), `putInCache`
evicts exactly one entry before inserting, namely the first-encountered
entry with minimal insertion timestamp; below the maximum it only
inserts. -/
theorem putInCache_spec {α : Type} (maxSize : ℕ) (c : Cache α) (k : String)
    (d : α) (t : Int) (hmax : 1 ≤ maxSize) :
    (maxSize ≤ c.length →
      ∃ l1 p l2, c = l1 ++ p :: l2 ∧
        (∀ q ∈ c, p.2.timestamp ≤ q.2.timestamp) ∧
        (∀ q ∈ l1, p.2.timestamp < q.2.timestamp) ∧
        (mapDelete c p.1).length + 1 = c.length ∧
        putInCache maxSize c k d t =
          some (mapSet (mapDelete c p.1) k ⟨d, t, 0⟩)) ∧
    (c.length < maxSize →
      putInCache maxSize c k d t = some (mapSet c k ⟨d, t, 0⟩)) := by
  constructor
  · intro hge
    have hne : c ≠ [] := by
      intro h
      rw [h] at hge
      simp at hge
      omega
    obtain ⟨l1, p, l2, hsplit, hold, hmin, hbefore⟩ := oldestEntry_spec c hne
    have hpmem : p ∈ c := by
      rw [hsplit]
      exact List.mem_append_right l1 (List.mem_cons_self p l2)
    refine ⟨l1, p, l2, hsplit, hmin, hbefore,
      mapDelete_length_of_mem ⟨p, hpmem, rfl⟩, ?_⟩
    unfold putInCache
    rw [if_pos hge, hold]
  · intro hlt
    unfold putInCache
    rw [if_neg (not_le.mpr hlt)]

/-- A two-entry cache whose second entry is older. -/
def cSample : Cache ℕ := [("a", ⟨1, 10, 0⟩), ("b", ⟨2, 5, 0⟩)]

/-- Witness for C3: at capacity 2, inserting a third key evicts the oldest
entry (`"b"`, timestamp 5). -/
theorem putInCache_spec_witness :
    ∃ l1 p l2, cSample = l1 ++ p :: l2 ∧
      (∀ q ∈ cSample, p.2.timestamp ≤ q.2.timestamp) ∧
      (∀ q ∈ l1, p.2.timestamp < q.2.timestamp) ∧
      (mapDelete cSample p.1).length + 1 = cSample.length ∧
      putInCache 2 cSample "c" 3 20 =
        some (mapSet (mapDelete cSample p.1) "c" ⟨3, 20, 0⟩) :=
  (putInCache_spec 2 cSample "c" 3 20 (by norm_num)).1 (by norm_num [cSample])

/-! ## Claim C4 -/

/-- Keys are pairwise distinct (always true of a JS `Map`). -/
def KeysNodup {α : Type} (c : Cache α) : Prop := (c.map Prod.fst).Nodup

/-- A key bound by no entry is not found. -/
theorem mapGet_eq_none {α : Type} :
    ∀ {c : Cache α} {k : String}, (∀ q ∈ c, q.1 ≠ k) → mapGet c k = none
  | [], _, _ => rfl
  | a :: rest, k, h => by
    have ha : a.1 ≠ k := h a (List.mem_cons_self a rest)
    have : mapGet rest k = none :=
      mapGet_eq_none fun q hq => h q (List.mem_cons_of_mem a hq)
    simpa [mapGet, ha]

/-- Lookup after in-place overwrite finds the new entry. -/
theorem mapGet_mapSet_self {α : Type} :
    ∀ (c : Cache α) (k : String) (v : CacheEntry α),
      mapGet (mapSet c k v) k = some v
  | [], k, v => by simp [mapSet, mapGet]
  | a :: rest, k, v => by
    by_cases hk : a.1 = k
    · simp [mapSet, hk, mapGet]
    · simpa [mapSet, hk, mapGet] using mapGet_mapSet_self rest k v

/-- Lookup after deletion misses, when keys are distinct. -/
theorem mapGet_mapDelete_self {α : Type} :
    ∀ {c : Cache α}, KeysNodup c → ∀ (k : String),
      mapGet (mapDelete c k) k = none
  | [], _, _ => rfl
  | a :: rest, hnd, k => by
    have hnd' : KeysNodup rest := (List.nodup_cons.mp hnd).2
    have hout : a.1 ∉ rest.map Prod.fst := (List.nodup_cons.mp hnd).1
    by_cases hk : a.1 = k
    · subst hk
      have : ∀ q ∈ rest, q.1 ≠ a.1 := by
        intro q hq hqa
        exact hout (hqa ▸ List.mem_map_of_mem Prod.fst hq)
      simpa [mapDelete] using mapGet_eq_none this
    · simpa [mapDelete, hk, mapGet] using mapGet_mapDelete_self hnd' k

/-- C4: `getFromCache` on a missing key returns absent with the cache
untouched (and, being a total function, never throws); on an entry older
than the TTL it returns absent and deletes the entry; on a fresh entry it
returns the payload and bumps the hit counter by exactly 1, leaving the
insertion timestamp (and payload) unchanged. -/
theorem getFromCache_spec {α : Type} (ttl : Int) (c : Cache α) (k : String)
    (now : Int) (hnd : KeysNodup c) :
    (mapGet c k = none → getFromCache ttl c k now = (none, c)) ∧
    (∀ e, mapGet c k = some e → ttl < now - e.timestamp →
      (getFromCache ttl c k now).1 = none ∧
      mapGet (getFromCache ttl c k now).2 k = none) ∧
    (∀ e, mapGet c k = some e → now - e.timestamp ≤ ttl →
      (getFromCache ttl c k now).1 = some e.data ∧
      mapGet (getFromCache ttl c k now).2 k =
        some ⟨e.data, e.timestamp, e.hits + 1⟩) := by
  refine ⟨fun h => ?_, fun e he hexp => ?_, fun e he hfresh => ?_⟩
  · unfold getFromCache
    rw [h]
  · have hred : getFromCache ttl c k now =
        if ttl < now - e.timestamp then (none, mapDelete c k)
        else (some e.data, mapSet c k ⟨e.data, e.timestamp, e.hits + 1⟩) := by
      unfold getFromCache
      rw [he]
    rw [hred, if_pos hexp]
    exact ⟨rfl, mapGet_mapDelete_self hnd k⟩
  · have hred : getFromCache ttl c k now =
        if ttl < now - e.timestamp then (none, mapDelete c k)
        else (some e.data, mapSet c k ⟨e.data, e.timestamp, e.hits + 1⟩) := by
      unfold getFromCache
      rw [he]
    rw [hred, if_neg (not_lt.mpr hfresh)]
    exact ⟨rfl, mapGet_mapSet_self c k _⟩

/-- A one-entry cache for concrete evaluations. -/
def c4Sample : Cache ℕ := [("quote:AAPL", ⟨7, 0, 3⟩)]

/-- Witness for C4: miss on an absent key, expiry at age 2000 > TTL 1000,
and a fresh read at age 500 bumping hits from 3 to 4. -/
theorem getFromCache_spec_witness :
    getFromCache 1000 c4Sample "quote:TSLA" 500 = (none, c4Sample) ∧
    ((getFromCache 1000 c4Sample "quote:AAPL" 2000).1 = none ∧
      mapGet (getFromCache 1000 c4Sample "quote:AAPL" 2000).2 "quote:AAPL" = none) ∧
    ((getFromCache 1000 c4Sample "quote:AAPL" 500).1 = some 7 ∧
      mapGet (getFromCache 1000 c4Sample "quote:AAPL" 500).2 "quote:AAPL" =
        some ⟨7, 0, 3 + 1⟩) :=
  ⟨(getFromCache_spec 1000 c4Sample "quote:TSLA" 500
      (by simp [KeysNodup, c4Sample])).1 (by simp [c4Sample, mapGet]),
   (getFromCache_spec 1000 c4Sample "quote:AAPL" 2000
      (by simp [KeysNodup, c4Sample])).2.1 ⟨7, 0, 3⟩
      (by simp [c4Sample, mapGet]) (by norm_num),
   (getFromCache_spec 1000 c4Sample "quote:AAPL" 500
      (by simp [KeysNodup, c4Sample])).2.2 ⟨7, 0, 3⟩
      (by simp [c4Sample, mapGet]) (by norm_num)⟩

/-! ## Claim C10 -/

/-- Under a positive maximum, `putInCache` on a cache within bounds
succeeds and stays within bounds. -/
theorem putInCache_some_length {α : Type} {maxSize : ℕ} (hmax : 1 ≤ maxSize)
    {c : Cache α} (hlen : c.length ≤ maxSize) (k : String) (d : α) (t : Int) :
    ∃ c', putInCache maxSize c k d t = some c' ∧ c'.length ≤ maxSize := by
  by_cases hge : maxSize ≤ c.length
  · have hne : c ≠ [] := by
      intro h
      rw [h] at hge
      simp at hge
      omega
    obtain ⟨l1, p, l2, _, hold, _, _⟩ := oldestEntry_spec c hne
    have hpmem : p ∈ c := by
      rename_i hsplit _ _
      rw [hsplit]
      exact List.mem_append_right l1 (List.mem_cons_self p l2)
    have hdel : (mapDelete c p.1).length + 1 = c.length :=
      mapDelete_length_of_mem ⟨p, hpmem, rfl⟩
    refine ⟨mapSet (mapDelete c p.1) k ⟨d, t, 0⟩, ?_, ?_⟩
    · unfold putInCache
      rw [if_pos hge, hold]
    · have := mapSet_length_le (mapDelete c p.1) k ⟨d, t, 0⟩
      omega
  · refine ⟨mapSet c k ⟨d, t, 0⟩, ?_, ?_⟩
    · unfold putInCache
      rw [if_neg hge]
    · have := mapSet_length_le c k ⟨d, t, 0⟩
      omega

/-- `getFromCache` never grows the cache. -/
theorem getFromCache_length_le {α : Type} (ttl : Int) (c : Cache α)
    (k : String) (now : Int) :
    (getFromCache ttl c k now).2.length ≤ c.length := by
  unfold getFromCache
  cases he : mapGet c k with
  | none => exact le_refl _
  | some e =>
      by_cases hexp : ttl < now - e.timestamp
      · simpa [hexp] using mapDelete_length_le c k
      · have := mapSet_length_of_get he (⟨e.data, e.timestamp, e.hits + 1⟩ : CacheEntry α)
        simp only [hexp, if_false]
        omega

/-- C10: starting from the empty cache, every interleaving of `putInCache`
and `getFromCache` (with a configured maximum of at least 1) keeps the
number of live entries at or below the maximum, and never hits the
degenerate empty-eviction failure. -/
theorem cache_size_invariant {α : Type} (maxSize : ℕ) (ttl : Int)
    (hmax : 1 ≤ maxSize) (ops : List (CacheOp α)) :
    ∃ c, ops.foldl (applyOp maxSize ttl) (some ([] : Cache α)) = some c ∧
      c.length ≤ maxSize := by
  suffices h : ∀ (ops : List (CacheOp α)) (c : Cache α), c.length ≤ maxSize →
      ∃ c', ops.foldl (applyOp maxSize ttl) (some c) = some c' ∧
        c'.length ≤ maxSize by
    exact h ops [] (by simp)
  intro ops
  induction ops with
  | nil => exact fun c hc => ⟨c, rfl, hc⟩
  | cons op rest ih =>
      intro c hc
      cases op with
      | putOp k d t =>
          obtain ⟨c', hput, hlen⟩ := putInCache_some_length hmax hc k d t
          obtain ⟨c'', hrest, hlen''⟩ := ih c' hlen
          refine ⟨c'', ?_, hlen''⟩
          rw [List.foldl_cons]
          simpa [applyOp, hput] using hrest
      | getOp k t =>
          have hle : (getFromCache ttl c k t).2.length ≤ maxSize :=
            le_trans (getFromCache_length_le ttl c k t) hc
          obtain ⟨c'', hrest, hlen''⟩ := ih _ hle
          refine ⟨c'', ?_, hlen''⟩
          rw [List.foldl_cons]
          simpa [applyOp] using hrest

/-- Witness for C10: three operations against a maximum of 1. -/
theorem cache_size_invariant_witness :
    ∃ c, ([CacheOp.putOp "a" 1 0, CacheOp.putOp "b" 2 1,
        CacheOp.getOp "a" 2].foldl (applyOp 1 1000) (some ([] : Cache ℕ))) =
          some c ∧ c.length ≤ 1 :=
  cache_size_invariant 1 1000 (by norm_num)
    [CacheOp.putOp "a" 1 0, CacheOp.putOp "b" 2 1, CacheOp.getOp "a" 2]

/-! ## Claim C5 -/

/-- A freshly seeded quote (no cache hit) has a strictly positive 2-decimal
`open`: the seed is at least 100 and the jitter factor at least 0.995. -/
theorem generateQuote_fresh_open_pos (sym : String) (r : QuoteRands)
    (ms : MarketState) (now : Int) (hs : 0 ≤ r.rSeed) (ho : 0 ≤ r.rOpen) :
    0 < (generateQuote sym none r ms now).openPrice := by
  have hfield : (generateQuote sym none r ms now).openPrice =
      toFixed2 ((100 + r.rSeed * 400) * (1 + (r.rOpen - 1 / 2) * (1 / 100))) := rfl
  rw [hfield]
  apply toFixed2_pos
  nlinarith [mul_nonneg hs ho]

/-- First tick against an empty cache: the quote is freshly seeded and
stored under `quote:<symbol>`. -/
theorem generateQuoteM_empty (ttl : Int) (maxSize : ℕ) (sym : String)
    (r : QuoteRands) (ms : MarketState) (t : Int) (hmax : 1 ≤ maxSize) :
    generateQuoteM ttl maxSize [] sym r ms t =
      (generateQuote sym none r ms t,
        some [(quoteCacheKey sym, ⟨generateQuote sym none r ms t, t, 0⟩)]) := by
  have hget : getFromCache ttl ([] : Cache Quote) (quoteCacheKey sym) t =
      (none, []) := rfl
  have hput : putInCache maxSize ([] : Cache Quote) (quoteCacheKey sym)
      (generateQuote sym none r ms t) t =
      some [(quoteCacheKey sym, ⟨generateQuote sym none r ms t, t, 0⟩)] := by
    unfold putInCache
    rw [if_neg (by simp; omega)]
    rfl
  simp only [generateQuoteM, hget]
  rw [hput]

/-- Later tick against a single-entry cache holding the prior quote: a
fresh read (age within TTL) returns it, and — with a maximum of at least
2, so no eviction — the new quote replaces it in place. -/
theorem generateQuoteM_cached (ttl : Int) (maxSize : ℕ) (sym : String)
    (r : QuoteRands) (ms : MarketState) (qp : Quote) (tp t : Int) (hits : ℕ)
    (hfresh : t - tp ≤ ttl) (hmax : 2 ≤ maxSize) :
    generateQuoteM ttl maxSize [(quoteCacheKey sym, ⟨qp, tp, hits⟩)] sym r ms t =
      (generateQuote sym (some qp) r ms t,
        some [(quoteCacheKey sym,
          ⟨generateQuote sym (some qp) r ms t, t, 0⟩)]) := by
  have hget : getFromCache ttl
      ([(quoteCacheKey sym, ⟨qp, tp, hits⟩)] : Cache Quote)
      (quoteCacheKey sym) t =
      (some qp, [(quoteCacheKey sym, ⟨qp, tp, hits + 1⟩)]) := by
    unfold getFromCache
    simp [mapGet, mapSet, not_lt.mpr hfresh]
  have hput : putInCache maxSize
      ([(quoteCacheKey sym, ⟨qp, tp, hits + 1⟩)] : Cache Quote)
      (quoteCacheKey sym) (generateQuote sym (some qp) r ms t) t =
      some [(quoteCacheKey sym,
        ⟨generateQuote sym (some qp) r ms t, t, 0⟩)] := by
    unfold putInCache
    rw [if_neg (by simp; omega)]
    simp [mapSet]
  simp only [generateQuoteM, hget]
  rw [hput]

/-- C5: (i) whenever `generateQuote` finds a cached prior quote (whose
`open` is nonzero — true of every quote the simulator itself caches, as
part (ii) shows), the new quote keeps the cached `open`; (ii) a sequential
5-tick run over the single symbol `"AAPL"` from an empty cache, with
strictly increasing tick times, inter-tick gaps within the TTL and a cache
maximum of at least 2 (no expiry, no eviction), emits exactly 5 quotes
whose `open` fields are all the same positive value and whose timestamps
are pairwise distinct. -/
theorem quote_open_continuity :
    (∀ (sym : String) (q : Quote) (r : QuoteRands) (ms : MarketState)
      (now : Int), q.openPrice ≠ 0 →
      (generateQuote sym (some q) r ms now).openPrice = q.openPrice) ∧
    (∀ (ttl : Int) (maxSize : ℕ) (ms : MarketState)
      (r1 r2 r3 r4 r5 : QuoteRands) (t1 t2 t3 t4 t5 : Int),
      2 ≤ maxSize → 0 ≤ r1.rSeed → 0 ≤ r1.rOpen →
      t1 < t2 → t2 < t3 → t3 < t4 → t4 < t5 →
      t2 - t1 ≤ ttl → t3 - t2 ≤ ttl → t4 - t3 ≤ ttl → t5 - t4 ≤ ttl →
      ∃ o, 0 < o ∧
        (runTicks ttl maxSize ms "AAPL" (some [])
            [(r1, t1), (r2, t2), (r3, t3), (r4, t4), (r5, t5)]).map
          (fun q => (q.timestamp, q.openPrice)) =
          [(t1, o), (t2, o), (t3, o), (t4, o), (t5, o)] ∧
        List.Pairwise (· ≠ ·) [t1, t2, t3, t4, t5]) := by
  have hkeep : ∀ (sym : String) (q : Quote) (r : QuoteRands)
      (ms : MarketState) (now : Int), q.openPrice ≠ 0 →
      (generateQuote sym (some q) r ms now).openPrice = q.openPrice := by
    intro sym q r ms now h
    simp [generateQuote, h]
  refine ⟨hkeep, ?_⟩
  intro ttl maxSize ms r1 r2 r3 r4 r5 t1 t2 t3 t4 t5 hmax hs ho
    h12 h23 h34 h45 g12 g23 g34 g45
  have hmax1 : 1 ≤ maxSize := by omega
  set q1 := generateQuote "AAPL" none r1 ms t1 with hq1
  set q2 := generateQuote "AAPL" (some q1) r2 ms t2 with hq2
  set q3 := generateQuote "AAPL" (some q2) r3 ms t3 with hq3
  set q4 := generateQuote "AAPL" (some q3) r4 ms t4 with hq4
  set q5 := generateQuote "AAPL" (some q4) r5 ms t5 with hq5
  have ho1 : 0 < q1.openPrice := generateQuote_fresh_open_pos "AAPL" r1 ms t1 hs ho
  have ho2 : q2.openPrice = q1.openPrice :=
    hkeep "AAPL" q1 r2 ms t2 (ne_of_gt ho1)
  have ho2' : 0 < q2.openPrice := ho2 ▸ ho1
  have ho3 : q3.openPrice = q2.openPrice :=
    hkeep "AAPL" q2 r3 ms t3 (ne_of_gt ho2')
  have ho3' : 0 < q3.openPrice := ho3 ▸ ho2'
  have ho4 : q4.openPrice = q3.openPrice :=
    hkeep "AAPL" q3 r4 ms t4 (ne_of_gt ho3')
  have ho4' : 0 < q4.openPrice := ho4 ▸ ho3'
  have ho5 : q5.openPrice = q4.openPrice :=
    hkeep "AAPL" q4 r5 ms t5 (ne_of_gt ho4')
  have hstep1 := generateQuoteM_empty ttl maxSize "AAPL" r1 ms t1 hmax1
  have hstep2 := generateQuoteM_cached ttl maxSize "AAPL" r2 ms q1 t1 t2 0
    (by omega) hmax
  have hstep3 := generateQuoteM_cached ttl maxSize "AAPL" r3 ms q2 t2 t3 0
    (by omega) hmax
  have hstep4 := generateQuoteM_cached ttl maxSize "AAPL" r4 ms q3 t3 t4 0
    (by omega) hmax
  have hstep5 := generateQuoteM_cached ttl maxSize "AAPL" r5 ms q4 t4 t5 0
    (by omega) hmax
  have hrun : runTicks ttl maxSize ms "AAPL" (some [])
      [(r1, t1), (r2, t2), (r3, t3), (r4, t4), (r5, t5)] =
      [q1, q2, q3, q4, q5] := by
    simp only [runTicks, hstep1, hstep2, hstep3, hstep4, hstep5,
      ← hq1, ← hq2, ← hq3, ← hq4, ← hq5]
  refine ⟨q1.openPrice, ho1, ?_, ?_⟩
  · rw [hrun]
    have ht1 : q1.timestamp = t1 := rfl
    have ht2 : q2.timestamp = t2 := rfl
    have ht3 : q3.timestamp = t3 := rfl
    have ht4 : q4.timestamp = t4 := rfl
    have ht5 : q5.timestamp = t5 := rfl
    simp [ht1, ht2, ht3, ht4, ht5, ho2, ho3, ho4, ho5]
  · simp only [List.pairwise_cons, List.forall_mem_cons, List.not_mem_nil,
      false_implies, implies_true, and_true, List.Pairwise.nil]
    refine ⟨⟨?_, ?_, ?_, ?_⟩, ⟨?_, ?_, ?_⟩, ⟨?_, ?_⟩, ?_⟩ <;> omega

/-- Witness for C5 at concrete inputs (TTL 3600000ms, maximum 1000, five
ticks at times 0..4). -/
theorem quote_open_continuity_witness :
    ∃ o, 0 < o ∧
      (runTicks 3600000 1000 msSample "AAPL" (some [])
          [(qrSample, 0), (qrSample, 1), (qrSample, 2), (qrSample, 3),
            (qrSample, 4)]).map (fun q => (q.timestamp, q.openPrice)) =
        [(0, o), (1, o), (2, o), (3, o), (4, o)] ∧
      List.Pairwise (· ≠ ·) [(0 : Int), 1, 2, 3, 4] :=
  quote_open_continuity.2 3600000 1000 msSample qrSample qrSample qrSample
    qrSample qrSample 0 1 2 3 4 (by norm_num) (by norm_num [qrSample])
    (by norm_num [qrSample]) (by norm_num) (by norm_num) (by norm_num)
    (by norm_num) (by norm_num) (by norm_num) (by norm_num) (by norm_num)


/-! ## Claim C7 -/

/-- One inner iteration pushes at most two items. -/
theorem streamIterItems_length (q : Quote) (sym : String) (r : StreamRand)
    (now : Int) : (streamIterItems q sym r now).length ≤ 2 := by
  unfold streamIterItems
  split <;> simp

/-- A chunk pass over `n` slots yields at most `2 * n` items. -/
theorem streamChunkAux_length (ttl : Int) (maxSize : ℕ)
    (symbols : List String) (ms : MarketState) (now : Int)
    (rnd : ℕ → StreamRand) :
    ∀ (n i : ℕ) (c : Cache Quote) (rc : List StreamItem × Cache Quote),
      streamChunkAux ttl maxSize symbols ms now rnd i n c = some rc →
      rc.1.length ≤ 2 * n
  | 0, i, c, rc, h => by
    simp only [streamChunkAux, Option.some.injEq] at h
    rw [← h]
    simp
  | n + 1, i, c, rc, h => by
    simp only [streamChunkAux, Option.bind_eq_some, Option.map_eq_some'] at h
    obtain ⟨c2, _, rc', hrc', rfl⟩ := h
    have h1 := streamChunkAux_length ttl maxSize symbols ms now rnd
      n (i + 1) c2 rc' hrc'
    simp only [List.length_append]
    exact le_trans
      (Nat.add_le_add (streamIterItems_length _ _ _ _) h1) (by omega)

/-- The total number of items yielded from cursor `gen` onwards is at most
`2 * (count - gen)`. -/
theorem streamLoop_join_length (ttl : Int) (maxSize cs : ℕ)
    (symbols : List String) (ms : MarketState) (now : Int)
    (rnd : ℕ → ℕ → StreamRand) (count : ℕ) :
    ∀ (fuel k gen : ℕ) (c : Cache Quote),
      ((streamLoop ttl maxSize cs symbols ms now rnd count
        fuel k gen c).flatten).length ≤ 2 * (count - gen)
  | 0, k, gen, c => by simp [streamLoop]
  | fuel + 1, k, gen, c => by
    simp only [streamLoop]
    split
    · simp
    · split
      · simp
      · rename_i items c' hsc
        have h1 : items.length ≤ 2 * min cs (count - gen) := by
          simpa using streamChunkAux_length ttl maxSize symbols ms now
            (rnd k) (min cs (count - gen)) 0 c (items, c') hsc
        have h2 := streamLoop_join_length ttl maxSize cs symbols ms now
          rnd count fuel (k + 1) (gen + items.length) c'
        have h3 : min cs (count - gen) ≤ count - gen := min_le_right _ _
        simp only [List.flatten_cons, List.length_append]
        omega

/-- Every yielded chunk holds at most `2 * cs` items. -/
theorem streamLoop_chunk_le (ttl : Int) (maxSize cs : ℕ)
    (symbols : List String) (ms : MarketState) (now : Int)
    (rnd : ℕ → ℕ → StreamRand) (count : ℕ) :
    ∀ (fuel k gen : ℕ) (c : Cache Quote),
      ∀ ch ∈ streamLoop ttl maxSize cs symbols ms now rnd count
        fuel k gen c, ch.length ≤ 2 * cs
  | 0, k, gen, c => by simp [streamLoop]
  | fuel + 1, k, gen, c => by
    intro ch hch
    simp only [streamLoop] at hch
    split at hch
    · simp at hch
    · split at hch
      · simp at hch
      · rename_i items c' hsc
        rcases List.mem_cons.mp hch with rfl | hch'
        · have h1 : ch.length ≤ 2 * min cs (count - gen) := by
            simpa using streamChunkAux_length ttl maxSize symbols ms now
              (rnd k) (min cs (count - gen)) 0 c (ch, c') hsc
          have h2 : min cs (count - gen) ≤ cs := min_le_left _ _
          omega
        · exact streamLoop_chunk_le ttl maxSize cs symbols ms now rnd count
            fuel (k + 1) (gen + items.length) c' ch hch'

/-- Once the cursor has reached the target count, the iterator yields
nothing further. -/
theorem streamLoop_exhausted (ttl : Int) (maxSize cs : ℕ)
    (symbols : List String) (ms : MarketState) (now : Int)
    (rnd : ℕ → ℕ → StreamRand) (count fuel k gen : ℕ) (c : Cache Quote)
    (h : count ≤ gen) :
    streamLoop ttl maxSize cs symbols ms now rnd count fuel k gen c = [] := by
  cases fuel with
  | zero => simp [streamLoop]
  | succ fuel => simp [streamLoop, h]

/-- A stream-iteration randomness bundle whose trade coin (4/5 > 0.7)
fires. -/
def srTrade : StreamRand := ⟨0, qrZero, 4 / 5, ⟨0, 0, 0, 0, 0, 0⟩⟩

/-- C7 counterexample: with `count = 1` and `chunkSize = 100`, a single
inner iteration whose trade coin fires yields 2 items — the iterator is
*not* bounded by `N` items, and the chunk exceeds the requested count. -/
theorem generateStream_count_counterexample :
    1 < ((generateStreamChunks 3600000 1000 ["AAPL"] msZero 0
      (fun _ _ => srTrade) 1 100).flatten).length := by
  norm_num [generateStreamChunks, streamLoop, streamChunkAux,
    streamIterItems, generateQuoteM, getFromCache, putInCache, mapGet,
    mapSet, quoteCacheKey, srTrade, qrZero, msZero]

/-- C7 amended: for every positive finite `count` and any `chunkSize`
(`0` standing for the absent option, defaulted to 100), the iterator
yields at most `2 * count` quote/trade items in total — each of the up-to-
`min(chunkSize, count - generated)` slots of a chunk yields one quote and
at most one trade, so a chunk holds at most `2 * chunkSize` items — and
once the cursor reaches `count` the iterator yields nothing further (a new
run requires a fresh call). -/
theorem generateStream_bounded (ttl : Int) (maxSize : ℕ)
    (symbols : List String) (ms : MarketState) (now : Int)
    (rnd : ℕ → ℕ → StreamRand) (count chunkSize : ℕ) (hc : 0 < count) :
    ((generateStreamChunks ttl maxSize symbols ms now rnd count
        chunkSize).flatten).length ≤ 2 * count ∧
    (∀ ch ∈ generateStreamChunks ttl maxSize symbols ms now rnd count
        chunkSize, ch.length ≤ 2 * (if chunkSize = 0 then 100 else chunkSize)) ∧
    (∀ (fuel k gen : ℕ) (c : Cache Quote), count ≤ gen →
      streamLoop ttl maxSize (if chunkSize = 0 then 100 else chunkSize)
        symbols ms now rnd count fuel k gen c = []) := by
  refine ⟨?_, ?_, ?_⟩
  · have h := streamLoop_join_length ttl maxSize
      (if chunkSize = 0 then 100 else chunkSize) symbols ms now rnd count
      count 0 0 []
    simpa [generateStreamChunks] using h
  · intro ch hch
    have h : ch ∈ streamLoop ttl maxSize
        (if chunkSize = 0 then 100 else chunkSize) symbols ms now rnd count
        count 0 0 [] := by
      simpa [generateStreamChunks] using hch
    exact streamLoop_chunk_le ttl maxSize _ symbols ms now rnd count
      count 0 0 [] ch h
  · intro fuel k gen c h
    exact streamLoop_exhausted ttl maxSize _ symbols ms now rnd count
      fuel k gen c h

/-- Witness for C7 at concrete inputs. -/
theorem generateStream_bounded_witness :
    ((generateStreamChunks 3600000 1000 ["AAPL", "MSFT"] msSample 0
        (fun _ _ => srTrade) 5 2).flatten).length ≤ 2 * 5 ∧
    (∀ ch ∈ generateStreamChunks 3600000 1000 ["AAPL", "MSFT"] msSample 0
        (fun _ _ => srTrade) 5 2,
      ch.length ≤ 2 * (if (2 : ℕ) = 0 then 100 else 2)) ∧
    (∀ (fuel k gen : ℕ) (c : Cache Quote), 5 ≤ gen →
      streamLoop 3600000 1000 (if (2 : ℕ) = 0 then 100 else 2)
        ["AAPL", "MSFT"] msSample 0 (fun _ _ => srTrade) 5 fuel k gen c = []) :=
  generateStream_bounded 3600000 1000 ["AAPL", "MSFT"] msSample 0
    (fun _ _ => srTrade) 5 2 (by norm_num)
